import Mathlib

/-!
Shallow embedding of the yotei scheduling-poll client's core logic.

JS strings are modelled as `List Char` (named `JStr`); JS `Set<string>` as a
duplicate-free `List String` (insertion order is kept, as in JS); JS `Map` as
an association list with JS `Map.set` update-in-place semantics.

The embedding models the ECMAScript `Date` runtime where the code calls it:
  * `new Date(y, m, d, ...)` applies the two-digit-year rule (a year value
    from 0 to 99 is treated as 1900 + year) before building the date; this is
    modelled by `jsYear`.
  * `getDay` (weekday, 0 = Sunday) is modelled by proleptic Gregorian
    day-count arithmetic (`rataDie`).
  * a `Date` value is modelled by its local wall-clock civil components
    (`CivilDT`); comparison of `Date` values (epoch-millisecond order) is
    lexicographic order on in-range civil components (`CivilDT.le`).
-/

/-- JS strings, modelled as their character lists. -/
abbrev JStr := List Char

/-- JS `String.prototype.split(sep)` for a one-character separator:
splits on every occurrence and keeps empty pieces, so the result is
always non-empty (`"".split("-") == [""]`). -/
def jsSplit (sep : Char) : JStr → List JStr
  | [] => [[]]
  | c :: rest =>
    match jsSplit sep rest with
    | [] => [[]]
    | p :: ps => if c = sep then [] :: p :: ps else (c :: p) :: ps

/-- JS `String.prototype.padStart(2, "0")`: left-pad with zeros up to length 2. -/
def padStart2 (s : JStr) : JStr :=
  if 2 ≤ s.length then s else List.replicate (2 - s.length) '0' ++ s

/-- Numeric value of a digit character. -/
def digitVal (c : Char) : Nat := c.toNat - '0'.toNat

/-- Value of a digit string (most significant first). -/
def digitsVal (s : JStr) : Nat := s.foldl (fun acc c => 10 * acc + digitVal c) 0

/-- JS `parseInt(s, 10)` restricted to the non-negative inputs this code
produces: take the longest digit prefix; `none` models `NaN` (no leading
digit, or `parseInt(undefined)`).  Leading sign and whitespace handling is
not needed by any call site. -/
def jsParseInt (s : JStr) : Option Nat :=
  match s with
  | [] => none
  | c :: _ => if c.isDigit then some (digitsVal (s.takeWhile Char.isDigit)) else none

/-- Decimal digit list of `n`, least significant first, with fuel. -/
def natDigitsRev (fuel n : Nat) : List Nat :=
  match fuel with
  | 0 => []
  | f + 1 => if n < 10 then [n] else n % 10 :: natDigitsRev f (n / 10)

/-- JS number-to-string conversion for a non-negative integer
(as in `` `${year}` ``). -/
def natToChars (n : Nat) : JStr :=
  (natDigitsRev (n + 1) n).reverse.map (fun d => Char.ofNat (d + '0'.toNat))

/-- The ECMAScript two-digit-year rule of the `Date` constructor:
a year value from 0 to 99 means 1900 + year. -/
def jsYear (y : Nat) : Nat := if y ≤ 99 then y + 1900 else y

/-- Gregorian leap-year test. -/
def isLeap (y : Nat) : Bool := (y % 4 = 0 && y % 100 != 0) || y % 400 = 0

/-- Length of calendar month `m` (1..12) of year `y`. -/
def monthLength (y m : Nat) : Nat :=
  if m = 2 then (if isLeap y then 29 else 28)
  else if m = 4 ∨ m = 6 ∨ m = 9 ∨ m = 11 then 30
  else 31

/-- Days of year `y` strictly before month `m` (1..12). -/
def cumDaysBefore (y m : Nat) : Nat :=
  (List.range (m - 1)).foldl (fun acc k => acc + monthLength y (k + 1)) 0

/-- Day count of `y-m-d` in the proleptic Gregorian calendar
(day 1 = January 1 of year 1). -/
def rataDie (y m d : Nat) : Nat :=
  365 * (y - 1) + ((y - 1) / 4 - (y - 1) / 100 + (y - 1) / 400) + cumDaysBefore y m + d

/-- Weekday of `y-m-d`, 0 = Sunday, as returned by `Date.prototype.getDay`
(January 1 of year 1 was a Monday in the proleptic Gregorian calendar). -/
def weekday (y m d : Nat) : Nat := rataDie y m d % 7

/-! ## Calendar grid generator and bulk selection (Calendar / VotingCalendar components)

Both components derive, from the `currentDate` state, `year = getFullYear()`
and `month = getMonth()` (0-indexed), then build
`firstDay = new Date(year, month, 1)` and `lastDay = new Date(year, month+1, 0)`.
`month0` below is the 0-indexed month. -/

/-- `new Date(year, month0, 1).getDay()`: weekday index (0 = Sunday) of day 1. -/
def firstDayOfWeekJS (year month0 : Nat) : Nat :=
  weekday (jsYear year) (month0 + 1) 1

/-- `new Date(year, month0 + 1, 0).getDate()`: day 0 of the next month is the
last day of calendar month `month0 + 1`, so this is its length. -/
def daysInMonthJS (year month0 : Nat) : Nat :=
  monthLength (jsYear year) (month0 + 1)

inductive CellType where
  | empty
  | day
deriving DecidableEq, Inhabited

/-- The `CalendarItem` record of both calendar components
(`type: 'empty' | 'day'; day: number; id: string`; `day` is -1 for `empty`). -/
structure CalendarItem where
  type : CellType
  day : Int
  id : String
deriving DecidableEq, Inhabited

/-- DateKey as built by the creation calendar (`Calendar` component):
`` `${year}-${month}-${day}` `` with the 0-indexed `month = getMonth()`. -/
def creationDateKey (year month0 day : Nat) : String :=
  s!"{year}-{month0}-{day}"

/-- DateKey as built by the voting calendar (`VotingCalendar` component):
`` `${year}-${month+1}-${day}` `` with the 1-indexed month. -/
def votingDateKey (year month0 day : Nat) : String :=
  s!"{year}-{month0 + 1}-{day}"

/-- The `days` array of the `VotingCalendar` component: a loop pushing
`firstDayOfWeek` empty cells, then a loop pushing one `day` cell per day
`1..daysInMonth`, with ids `` `empty-${year}-${month+1}-${i}` `` and
`` `${year}-${month+1}-${day}` ``. -/
def votingDays (year month0 : Nat) : List CalendarItem :=
  let firstDayOfWeek := firstDayOfWeekJS year month0
  let daysInMonth := daysInMonthJS year month0
  let empties := (List.range firstDayOfWeek).foldl
    (fun acc i => acc ++ [⟨.empty, -1, s!"empty-{year}-{month0 + 1}-{i}"⟩]) []
  (List.range daysInMonth).foldl
    (fun acc k => acc ++ [⟨.day, (k : Int) + 1, votingDateKey year month0 (k + 1)⟩]) empties

/-- The `days` array of the creation `Calendar` component; identical loops but
the ids use the 0-indexed month: `` `empty-${year}-${month}-${i}` `` and
`` `${year}-${month}-${day}` ``. -/
def creationDays (year month0 : Nat) : List CalendarItem :=
  let firstDayOfWeek := firstDayOfWeekJS year month0
  let daysInMonth := daysInMonthJS year month0
  let empties := (List.range firstDayOfWeek).foldl
    (fun acc i => acc ++ [⟨.empty, -1, s!"empty-{year}-{month0}-{i}"⟩]) []
  (List.range daysInMonth).foldl
    (fun acc k => acc ++ [⟨.day, (k : Int) + 1, creationDateKey year month0 (k + 1)⟩]) empties

/-- JS `Set.add`: append the key if absent (JS sets keep insertion order). -/
def setAdd (s : List String) (k : String) : List String :=
  if k ∈ s then s else s ++ [k]

/-- JS `Set.delete`: remove the key. -/
def setDelete (s : List String) (k : String) : List String :=
  s.filter (fun x => x ≠ k)

/-- `handleDateClick` of `VotingCalendar`: compute the 1-indexed-month
DateKey; if it is not a candidate date, return with the selection unchanged;
otherwise delete it when present, add it when absent. -/
def handleDateClick (year month0 : Nat) (candidateDates selectedDates : List String)
    (day : Nat) : List String :=
  let dateKey := votingDateKey year month0 day
  if dateKey ∉ candidateDates then selectedDates
  else if dateKey ∈ selectedDates then setDelete selectedDates dateKey
  else setAdd selectedDates dateKey

/-- One iteration body of the column/row toggles of `VotingCalendar`:
skip `empty` cells and non-candidate keys, otherwise toggle membership. -/
def gatedToggleItem (candidateDates : List String) (newSelected : List String)
    (item : CalendarItem) : List String :=
  if item.type = .day then
    if item.id ∉ candidateDates then newSelected
    else if item.id ∈ newSelected then setDelete newSelected item.id
    else setAdd newSelected item.id
  else newSelected

/-- `handleDayOfWeekClick` of `VotingCalendar`: the source loop is
`for (let i = 0; i < daysInMonth - index; i += 7)` visiting `days[i + index]`,
so the visited grid positions are `index, index + 7, ...` strictly below
`daysInMonth` (not below `days.length`). -/
def handleDayOfWeekClick (year month0 : Nat) (candidateDates selectedDates : List String)
    (index : Nat) : List String :=
  let days := votingDays year month0
  let daysInMonth := daysInMonthJS year month0
  let iterations := (List.range ((daysInMonth - index + 6) / 7)).map (fun k => 7 * k)
  iterations.foldl
    (fun newSelected i => gatedToggleItem candidateDates newSelected (days.getD (i + index) default))
    selectedDates

/-! ## Date/time utilities (`src/lib/dateUtils.ts`) -/

/-- `normalizeDateFormat`: split on `-`; if not exactly 3 parts return the
input unchanged, else zero-pad the month and day parts to two characters. -/
def normalizeDateFormat (dateStr : JStr) : JStr :=
  match jsSplit '-' dateStr with
  | [year, month, day] => year ++ '-' :: (padStart2 month ++ '-' :: padStart2 day)
  | _ => dateStr

/-- `normalizeTimeFormat`: split on `:`; if not exactly 2 parts return the
input unchanged, else zero-pad the hour and minute parts to two characters. -/
def normalizeTimeFormat (timeStr : JStr) : JStr :=
  match jsSplit ':' timeStr with
  | [hour, minute] => padStart2 hour ++ ':' :: padStart2 minute
  | _ => timeStr

/-- The test `/^\d{4}-\d{1,2}-\d{1,2}$/.test(s)` together with the subsequent
`split('-')` + `parseInt` of `isValidDate`: the string matches the regex
exactly when it splits on `-` into three all-digit pieces of lengths 4, 1-2,
1-2; in that case return their numeric values. -/
def parseDate3 (s : JStr) : Option (Nat × Nat × Nat) :=
  match jsSplit '-' s with
  | [ys, ms, ds] =>
    if ys.length = 4 && ys.all Char.isDigit
        && 1 ≤ ms.length && ms.length ≤ 2 && ms.all Char.isDigit
        && 1 ≤ ds.length && ds.length ≤ 2 && ds.all Char.isDigit
    then some (digitsVal ys, digitsVal ms, digitsVal ds)
    else none
  | _ => none

/-- The projections of `new Date(y, mIdx, d)` as used by `isValidDate`'s
round-trip check.  At that call site `mIdx ∈ [0, 11]` and
`d ∈ [1, monthLength (jsYear y) (mIdx + 1)]` were already checked, so the
constructor performs no rollover and only the two-digit-year rule applies. -/
def jsDateYMD (y mIdx d : Nat) : Nat × Nat × Nat := (jsYear y, mIdx, d)

/-- `isValidDate`: regex test, then month range check, then day range check
against `new Date(year, month, 0).getDate()`, then the round-trip check
`date.getFullYear() === year && date.getMonth() === month - 1 &&
date.getDate() === day` for `date = new Date(year, month - 1, day)`. -/
def isValidDate (dateStr : JStr) : Bool :=
  match parseDate3 dateStr with
  | none => false
  | some (year, month, day) =>
    if month < 1 || 12 < month then false
    else
      let daysInMonth := monthLength (jsYear year) month
      if day < 1 || daysInMonth < day then false
      else
        let c := jsDateYMD year (month - 1) day
        decide (c.1 = year ∧ c.2.1 = month - 1 ∧ c.2.2 = day)

/-- The test `/^\d{1,2}:\d{1,2}$/.test(s)` together with the subsequent
`split(':')` + `parseInt` of `isValidTime`. -/
def parseTime2 (s : JStr) : Option (Nat × Nat) :=
  match jsSplit ':' s with
  | [hs, ms] =>
    if 1 ≤ hs.length && hs.length ≤ 2 && hs.all Char.isDigit
        && 1 ≤ ms.length && ms.length ≤ 2 && ms.all Char.isDigit
    then some (digitsVal hs, digitsVal ms)
    else none
  | _ => none

/-- `isValidTime`: regex test, then `hour ∈ [0, 23]` and `minute ∈ [0, 59]`. -/
def isValidTime (timeStr : JStr) : Bool :=
  match parseTime2 timeStr with
  | none => false
  | some (hour, minute) => decide (hour ≤ 23 ∧ minute ≤ 59)

/-- A JS `Date` value, modelled by its local wall-clock civil components.
`monthIdx` is 0-indexed as in `getMonth()`. -/
structure CivilDT where
  year : Nat
  monthIdx : Nat
  day : Nat
  hour : Nat
  minute : Nat
  second : Nat
  ms : Nat
deriving DecidableEq

/-- The components are a calendar-valid local date-time. -/
def CivilDT.valid (x : CivilDT) : Prop :=
  x.monthIdx ≤ 11 ∧ 1 ≤ x.day ∧ x.day ≤ monthLength x.year (x.monthIdx + 1) ∧
    x.hour ≤ 23 ∧ x.minute ≤ 59 ∧ x.second ≤ 59 ∧ x.ms ≤ 999

instance (x : CivilDT) : Decidable x.valid := by
  unfold CivilDT.valid; infer_instance

/-- Epoch-millisecond order on `Date` values: for in-range civil components
this is exactly lexicographic order on
(year, month, day, hour, minute, second, ms). -/
def CivilDT.le (a b : CivilDT) : Bool :=
  if a.year ≠ b.year then a.year < b.year
  else if a.monthIdx ≠ b.monthIdx then a.monthIdx < b.monthIdx
  else if a.day ≠ b.day then a.day < b.day
  else if a.hour ≠ b.hour then a.hour < b.hour
  else if a.minute ≠ b.minute then a.minute < b.minute
  else if a.second ≠ b.second then a.second < b.second
  else a.ms ≤ b.ms

/-- `dateTimeStringsToDate(dateStr, timeStr)`: split the strings, `parseInt`
the five components and build
`new Date(year, month - 1, day, hour, minute, 0)`.  The constructor applies
the two-digit-year rule; `none` models an `Invalid Date` (a `NaN` component).
Out-of-range in-bounds components would roll over in JS; every use in this
code reaches this function with in-range components, and the model returns
`none` outside that range. -/
def dateTimeStringsToDate (dateStr timeStr : JStr) : Option CivilDT :=
  let dateParts := jsSplit '-' dateStr
  let timeParts := jsSplit ':' timeStr
  match jsParseInt (dateParts.getD 0 []), jsParseInt (dateParts.getD 1 []),
      jsParseInt (dateParts.getD 2 []), jsParseInt (timeParts.getD 0 []),
      jsParseInt (timeParts.getD 1 []) with
  | some year, some month, some day, some hour, some minute =>
    let y := jsYear year
    if 1 ≤ month ∧ month ≤ 12 ∧ 1 ≤ day ∧ day ≤ monthLength y month ∧
        hour ≤ 23 ∧ minute ≤ 59 then
      some ⟨y, month - 1, day, hour, minute, 0, 0⟩
    else none
  | _, _, _, _, _ => none

/-- `dateToDateString(date)`:
`` `${getFullYear()}-${pad2 (getMonth()+1)}-${pad2 getDate()}` ``. -/
def dateToDateString (date : CivilDT) : JStr :=
  natToChars date.year ++ '-' ::
    (padStart2 (natToChars (date.monthIdx + 1)) ++ '-' :: padStart2 (natToChars date.day))

/-- `dateToTimeString(date)`: `` `${pad2 getHours()}:${pad2 getMinutes()}` ``. -/
def dateToTimeString (date : CivilDT) : JStr :=
  padStart2 (natToChars date.hour) ++ ':' :: padStart2 (natToChars date.minute)

/-- `isPastDateTime(dateStr, timeStr)`: decode the strings and compare with
the current time; comparing an `Invalid Date` is `NaN <= now`, i.e. `false`.
`now` is the injected clock. -/
def isPastDateTime (now : CivilDT) (dateStr timeStr : JStr) : Bool :=
  match dateTimeStringsToDate dateStr timeStr with
  | none => false
  | some targetDate => targetDate.le now

/-! ## Settings reconciliation (`src/app/setting/page.tsx`)

The JSON document is modelled by `JValue` (the result of a successful
`JSON.parse`); a parse failure is an `Except.error` carrying the exception
message.  Property access on `null` throws in JS, and calling `.split` on a
non-string throws; exact engine message texts vary by runtime, so they are
modelled by representative constant messages. -/

inductive JValue where
  | jnull
  | jbool (b : Bool)
  | jnum (n : Int)
  | jstr (s : JStr)
  | jarr (elems : List JValue)
  | jobj (fields : List (String × JValue))

/-- Property read `v.name`: `none` models `undefined`.  (`v = null` throws
instead; the caller handles that case.) -/
def JValue.getF (v : JValue) (name : String) : Option JValue :=
  match v with
  | .jobj fields => fields.lookup name
  | _ => none

/-- Property read on a possibly-`undefined` base, used after a truthiness
check guaranteed the base is not `null`/`undefined`. -/
def optGetF (v : Option JValue) (name : String) : Option JValue :=
  match v with
  | some w => w.getF name
  | none => none

/-- JS truthiness of a property value (`undefined`, `null`, `false`, `0`
and `""` are falsy). -/
def jsTruthy : Option JValue → Bool
  | none => false
  | some .jnull => false
  | some (.jbool b) => b
  | some (.jnum n) => decide (n ≠ 0)
  | some (.jstr s) => decide (s ≠ [])
  | some (.jarr _) => true
  | some (.jobj _) => true

/-- `typeof x === 'boolean'`. -/
def isBoolV : Option JValue → Bool
  | some (.jbool _) => true
  | _ => false

/-- The boolean payload (call sites verify `isBoolV` first). -/
def boolOfV : Option JValue → Bool
  | some (.jbool b) => b
  | _ => false

/-- `typeof x === 'string'`. -/
def isStrV : Option JValue → Bool
  | some (.jstr _) => true
  | _ => false

/-- The string payload (call sites verify `isStrV` first). -/
def strOfV : Option JValue → JStr
  | some (.jstr s) => s
  | _ => []

/-- `typeof x === 'number'`. -/
def isNumV : Option JValue → Bool
  | some (.jnum _) => true
  | _ => false

/-- `x === null` (an absent property is `undefined`, which is not `null`). -/
def isNullV : Option JValue → Bool
  | some .jnull => true
  | _ => false

def msgNullAccess : JStr := "Cannot read properties of null".data
def msgAllowBool : JStr := "allowSettingChanges must be a boolean".data
def msgDeadlineObj : JStr := "deadline object is required".data
def msgDeadlineEnable : JStr := "deadline.enable must be a boolean".data
def msgDateStr : JStr := "deadline.date must be a string".data
def msgDateValid : JStr := "deadline.date must be a valid date in YYYY-MM-DD format".data
def msgTimeStr : JStr := "deadline.time must be a string".data
def msgTimeValid : JStr := "deadline.time must be a valid time in HH:mm format".data
def msgFuture : JStr := "deadline must be a future date and time".data
def msgAutoBool : JStr := "autoDecision.enable must be a boolean".data
def msgThresholdNum : JStr := "autoDecision.threshold must be a number or null".data
def msgRssBool : JStr := "rss.enable must be a boolean".data
def msgSplitThrow : JStr := "split is not a function".data

/-- `normalizeDateFormat(parsed.deadline.date)` on a dynamic value: calling
`.split` on anything but a string throws a `TypeError`. -/
def normalizeDateFieldJS : Option JValue → Except JStr JStr
  | some (.jstr s) => .ok (normalizeDateFormat s)
  | _ => .error msgSplitThrow

/-- `normalizeTimeFormat(parsed.deadline.time)` on a dynamic value. -/
def normalizeTimeFieldJS : Option JValue → Except JStr JStr
  | some (.jstr s) => .ok (normalizeTimeFormat s)
  | _ => .error msgSplitThrow

/-- The React state of the setting page that `handleJsonChange`,
`handleJsonBlur` and `handleSave` read and write. -/
structure UIState where
  allowSettingChanges : Bool
  enableDeadline : Bool
  deadlineDate : JStr
  deadlineTime : JStr
  enableAutoDecision : Bool
  threshold : Int
  enableRss : Bool
  jsonText : JStr
  jsonError : JStr
  isJsonEditing : Bool
deriving DecidableEq

/-- The seven Structured settings fields agree (everything except
`jsonText`/`jsonError`/`isJsonEditing`). -/
def UIState.structEq (a b : UIState) : Prop :=
  a.allowSettingChanges = b.allowSettingChanges ∧ a.enableDeadline = b.enableDeadline ∧
    a.deadlineDate = b.deadlineDate ∧ a.deadlineTime = b.deadlineTime ∧
    a.enableAutoDecision = b.enableAutoDecision ∧ a.threshold = b.threshold ∧
    a.enableRss = b.enableRss

instance (a b : UIState) : Decidable (a.structEq b) := by
  unfold UIState.structEq; infer_instance

/-- The part of `handleJsonChange` after the deadline block: the
`autoDecision` and `rss` validations, then the normalization calls and the
state updates.  `normalizeDateFormat` is called on `parsed.deadline.date`
even when the deadline is disabled, so it can still throw here; the setters
only run once both normalizations succeeded, so the update is all-or-nothing. -/
def jsonChangeFinish (st : UIState) (parsed : JValue) : UIState :=
  if !(jsTruthy (parsed.getF "autoDecision") &&
      isBoolV (optGetF (parsed.getF "autoDecision") "enable")) then
    { st with jsonError := msgAutoBool }
  else if !(isNullV (optGetF (parsed.getF "autoDecision") "threshold")) &&
      !(isNumV (optGetF (parsed.getF "autoDecision") "threshold")) then
    { st with jsonError := msgThresholdNum }
  else if !(jsTruthy (parsed.getF "rss") && isBoolV (optGetF (parsed.getF "rss") "enable")) then
    { st with jsonError := msgRssBool }
  else
    match normalizeDateFieldJS (optGetF (parsed.getF "deadline") "date") with
    | .error m => { st with jsonError := m }
    | .ok normalizedDate =>
      match normalizeTimeFieldJS (optGetF (parsed.getF "deadline") "time") with
      | .error m => { st with jsonError := m }
      | .ok normalizedTime =>
        { st with
          allowSettingChanges := boolOfV (parsed.getF "allowSettingChanges"),
          enableDeadline := boolOfV (optGetF (parsed.getF "deadline") "enable"),
          deadlineDate := normalizedDate,
          deadlineTime := normalizedTime,
          enableAutoDecision := boolOfV (optGetF (parsed.getF "autoDecision") "enable"),
          threshold := (match optGetF (parsed.getF "autoDecision") "threshold" with
            | some (.jnum n) => n
            | _ => st.threshold),
          enableRss := boolOfV (optGetF (parsed.getF "rss") "enable"),
          jsonError := [] }

/-- The fail-fast validation chain of `handleJsonChange`, starting at the
`allowSettingChanges` check (property access has already succeeded, so
`parsed` is not `null`): each failing check sets its error message and
returns, otherwise control reaches the `autoDecision`/`rss` checks and the
state update in `jsonChangeFinish`. -/
def jsonChangeValidate (now : CivilDT) (st : UIState) (parsed : JValue) : UIState :=
  if !(isBoolV (parsed.getF "allowSettingChanges")) then
    { st with jsonError := msgAllowBool }
  else if !(jsTruthy (parsed.getF "deadline")) then
    { st with jsonError := msgDeadlineObj }
  else if !(isBoolV (optGetF (parsed.getF "deadline") "enable")) then
    { st with jsonError := msgDeadlineEnable }
  else if boolOfV (optGetF (parsed.getF "deadline") "enable") then
    (if !(isStrV (optGetF (parsed.getF "deadline") "date")) then
      { st with jsonError := msgDateStr }
    else if !(isValidDate (strOfV (optGetF (parsed.getF "deadline") "date"))) then
      { st with jsonError := msgDateValid }
    else if !(isStrV (optGetF (parsed.getF "deadline") "time")) then
      { st with jsonError := msgTimeStr }
    else if !(isValidTime (strOfV (optGetF (parsed.getF "deadline") "time"))) then
      { st with jsonError := msgTimeValid }
    else if isPastDateTime now (strOfV (optGetF (parsed.getF "deadline") "date"))
        (strOfV (optGetF (parsed.getF "deadline") "time")) then
      { st with jsonError := msgFuture }
    else jsonChangeFinish st parsed)
  else jsonChangeFinish st parsed

/-- `handleJsonChange(value)`: store the text and enter editing mode, then
parse and run the fail-fast validation chain; each failing check sets its
error message and returns, the success path pushes the parsed values into
the Structured state and clears the error.  A parse exception (or the
property-access `TypeError` on a top-level `null`) is caught and its message
stored.  `now` is the injected clock used by the past-deadline check. -/
def handleJsonChange (now : CivilDT) (prev : UIState) (value : JStr)
    (parseResult : Except JStr JValue) : UIState :=
  let st := { prev with jsonText := value, isJsonEditing := true }
  match parseResult with
  | .error e => { st with jsonError := e }
  | .ok parsed =>
    match parsed with
    | .jnull => { st with jsonError := msgNullAccess }
    | _ => jsonChangeValidate now st parsed

/-- The tail of the spec's field-validation table (`autoDecision` and `rss`
rows), mirroring `jsonChangeFinish` without the state updates. -/
def specValidationTail (parsed : JValue) : Option JStr :=
  if !(jsTruthy (parsed.getF "autoDecision") &&
      isBoolV (optGetF (parsed.getF "autoDecision") "enable")) then some msgAutoBool
  else if !(isNullV (optGetF (parsed.getF "autoDecision") "threshold")) &&
      !(isNumV (optGetF (parsed.getF "autoDecision") "threshold")) then
    some msgThresholdNum
  else if !(jsTruthy (parsed.getF "rss") && isBoolV (optGetF (parsed.getF "rss") "enable")) then
    some msgRssBool
  else none

/-- The field-validation table of the spec applied to a parsed document:
row by row in the spec's order, first failure wins. -/
def specFieldTable (now : CivilDT) (parsed : JValue) : Option JStr :=
  if !(isBoolV (parsed.getF "allowSettingChanges")) then some msgAllowBool
  else if !(jsTruthy (parsed.getF "deadline")) then some msgDeadlineObj
  else if !(isBoolV (optGetF (parsed.getF "deadline") "enable")) then some msgDeadlineEnable
  else if boolOfV (optGetF (parsed.getF "deadline") "enable") then
    (if !(isStrV (optGetF (parsed.getF "deadline") "date")) then some msgDateStr
    else if !(isValidDate (strOfV (optGetF (parsed.getF "deadline") "date"))) then
      some msgDateValid
    else if !(isStrV (optGetF (parsed.getF "deadline") "time")) then some msgTimeStr
    else if !(isValidTime (strOfV (optGetF (parsed.getF "deadline") "time"))) then
      some msgTimeValid
    else if isPastDateTime now (strOfV (optGetF (parsed.getF "deadline") "date"))
        (strOfV (optGetF (parsed.getF "deadline") "time")) then
      some msgFuture
    else specValidationTail parsed)
  else specValidationTail parsed

/-- The spec's settings-document failure condition, stated from its words:
a JSON parse failure, or the first failing row of the field validation table
(all fields required; first failure wins, fail-fast), evaluated on the same
parse result the handler receives.  Returns the failure's message, `none`
when parse and every table row succeed. -/
def specFieldValidationError (now : CivilDT) (parseResult : Except JStr JValue) :
    Option JStr :=
  match parseResult with
  | .error e => some e
  | .ok parsed =>
    match parsed with
    | .jnull => some msgNullAccess
    | _ => specFieldTable now parsed

/-! ## Saving the settings (`handleSave` of `src/app/setting/page.tsx`) -/

/-- The `VotingSettings` value obtained from `JSON.parse(jsonText)` inside
`handleSave` (at that point the text has already passed `handleJsonChange`
validation whenever `jsonError` is empty). -/
structure VSettings where
  allowSettingChanges : Bool
  deadlineEnable : Bool
  deadlineDate : JStr
  deadlineTime : JStr
  autoDecisionEnable : Bool
  autoDecisionThreshold : Option Int
  rssEnable : Bool
deriving DecidableEq

/-- The body of `eventAPI.updateSettings`.  The `deadline` field carries the
converted instant (`none` models the empty string sent when the deadline is
disabled); `auto_decision_threshold` is `threshold || 0`. -/
structure UpdateSettingsDto where
  allow_setting_changes : Bool
  deadline_enable : Bool
  deadline : Option CivilDT
  auto_decision_enable : Bool
  auto_decision_threshold : Int
  rss_enabled : Bool
deriving DecidableEq

/-- Outcome of one `handleSave` run: which alert fired, or the save went
through carrying the settings API call it issued (`none` when there is no
event id, in which case only session storage is written). -/
inductive SaveResult where
  | alertJsonError
  | alertNotAllowed
  | alertPastDeadline
  | alertCaught
  | saved (api : Option UpdateSettingsDto)
deriving DecidableEq

/-- The settings API call a save outcome issued, if any. -/
def apiCallOf : SaveResult → Option UpdateSettingsDto
  | .saved api => api
  | _ => none

/-- Truthiness of `eventId` (a `useSearchParams().get` result:
`null` or a string; the empty string is falsy). -/
def jsTruthyId : Option String → Bool
  | none => false
  | some s => decide (s ≠ "")

/-- `handleSave`: bail out on a pending JSON error; bail out when editing an
event whose settings may not be changed; re-parse the document; reject a
past (or current) deadline before any storage or API effect; convert the
deadline (conversion of an unparseable deadline throws inside the `try`);
then write session storage and, when an event id is present, issue the
settings API call. -/
def handleSave (now : CivilDT) (jsonError : JStr) (eventId : Option String)
    (initialAllowSettingChanges : Bool) (parseResult : Except JStr VSettings) : SaveResult :=
  if jsonError ≠ [] then .alertJsonError
  else if jsTruthyId eventId && !initialAllowSettingChanges then .alertNotAllowed
  else
    match parseResult with
    | .error _ => .alertCaught
    | .ok settings =>
      if settings.deadlineEnable &&
          isPastDateTime now settings.deadlineDate settings.deadlineTime then
        .alertPastDeadline
      else
        match (if settings.deadlineEnable then
            (dateTimeStringsToDate settings.deadlineDate settings.deadlineTime).map some
          else some none) with
        | none => .alertCaught
        | some deadlineDateTime =>
          .saved (if jsTruthyId eventId then
              some { allow_setting_changes := settings.allowSettingChanges,
                     deadline_enable := settings.deadlineEnable,
                     deadline := deadlineDateTime,
                     auto_decision_enable := settings.autoDecisionEnable,
                     auto_decision_threshold := settings.autoDecisionThreshold.getD 0,
                     rss_enabled := settings.rssEnable }
            else none)

/-! ## Participant registration (`handleRegister` of the vote page)

`fetchEventData` maps each server candidate date to the pair
`(cd.id, dateStr)`; `candidateDates` is the `Set` of the `dateStr`s and
`candidateDateIdMap` the `Map` from id to `dateStr`, built in one pass. -/

/-- JS `Map.set`: update in place when the key exists, else append. -/
def mapSet {α β : Type} [DecidableEq α] (m : List (α × β)) (k : α) (v : β) :
    List (α × β) :=
  if (m.lookup k).isSome then m.map (fun p => if p.1 = k then (k, v) else p)
  else m ++ [(k, v)]

/-- The `candidateDates` set and `candidateDateIdMap` built by
`fetchEventData` from the `(id, dateStr)` pairs of `data.candidate_dates`. -/
def buildCandState (cds : List (Int × String)) : List String × List (Int × String) :=
  cds.foldl (fun st cd => (setAdd st.1 cd.2, mapSet st.2 cd.1 cd.2)) ([], [])

/-- The reverse `dateToIdMap` built inside `handleRegister` by iterating
`candidateDateIdMap` and calling `dateToIdMap.set(dateStr, id)`. -/
def dateToIdMap (candidateDateIdMap : List (Int × String)) : List (String × Int) :=
  candidateDateIdMap.foldl (fun m p => mapSet m p.2 p.1) []

/-- The id-list construction of `handleRegister`: for every candidate date
string, look up its id; `if (candidateDateId)` skips a missing ids and the
falsy id `0`; a selected date's id goes to `availableCandidateDateIds`, an
unselected one to `unavailableCandidateDateIds`. -/
def handleRegisterIds (candidateDates : List String)
    (candidateDateIdMap : List (Int × String)) (selectedDates : List String) :
    List Int × List Int :=
  let dateToId := dateToIdMap candidateDateIdMap
  candidateDates.foldl (fun acc dateStr =>
    match dateToId.lookup dateStr with
    | none => acc
    | some candidateDateId =>
      if candidateDateId = 0 then acc
      else if dateStr ∈ selectedDates then (acc.1 ++ [candidateDateId], acc.2)
      else (acc.1, acc.2 ++ [candidateDateId])) ([], [])

/-- The id contributed to `availableCandidateDateIds` by one candidate date
string in `handleRegister`, if any: its reverse-mapped id, provided the id
is truthy and the date is selected. -/
def registerPickAvail (dateToId : List (String × Int)) (selectedDates : List String)
    (dateStr : String) : Option Int :=
  match dateToId.lookup dateStr with
  | none => none
  | some candidateDateId =>
    if candidateDateId = 0 then none
    else if dateStr ∈ selectedDates then some candidateDateId
    else none

/-- The id contributed to `unavailableCandidateDateIds` by one candidate date
string in `handleRegister`, if any. -/
def registerPickUnavail (dateToId : List (String × Int)) (selectedDates : List String)
    (dateStr : String) : Option Int :=
  match dateToId.lookup dateStr with
  | none => none
  | some candidateDateId =>
    if candidateDateId = 0 then none
    else if dateStr ∈ selectedDates then none
    else some candidateDateId

/-! ## Theorems -/

theorem foldl_push_eq_map {α β : Type} (f : α → β) (l : List α) (init : List β) :
    l.foldl (fun acc x => acc ++ [f x]) init = init ++ l.map f := by
  induction l generalizing init with
  | nil => simp
  | cons x xs ih => simp [List.foldl_cons, ih]

theorem votingDays_eq (year month0 : Nat) :
    votingDays year month0 =
      (List.range (firstDayOfWeekJS year month0)).map
        (fun i => (⟨.empty, -1, s!"empty-{year}-{month0 + 1}-{i}"⟩ : CalendarItem)) ++
      (List.range (daysInMonthJS year month0)).map
        (fun k : Nat => (⟨.day, (k : Int) + 1, votingDateKey year month0 (k + 1)⟩ : CalendarItem)) := by
  unfold votingDays
  rw [foldl_push_eq_map, foldl_push_eq_map]
  simp

theorem creationDays_eq (year month0 : Nat) :
    creationDays year month0 =
      (List.range (firstDayOfWeekJS year month0)).map
        (fun i => (⟨.empty, -1, s!"empty-{year}-{month0}-{i}"⟩ : CalendarItem)) ++
      (List.range (daysInMonthJS year month0)).map
        (fun k : Nat => (⟨.day, (k : Int) + 1, creationDateKey year month0 (k + 1)⟩ : CalendarItem)) := by
  unfold creationDays
  rw [foldl_push_eq_map, foldl_push_eq_map]
  simp

/-- C7: for every year and 0-indexed month, each generated calendar grid is
exactly `firstDayOfWeek` leading `Empty` cells (`firstDayOfWeek` being the
weekday index, 0 = Sunday, of day 1 of that month) followed by one `Day`
cell per day `1 .. daysInMonth`, in increasing order, so its total length is
`firstDayOfWeek + daysInMonth`. -/
theorem c7_grid_shape (year month0 : Nat) :
    votingDays year month0 =
      (List.range (firstDayOfWeekJS year month0)).map
        (fun i => (⟨.empty, -1, s!"empty-{year}-{month0 + 1}-{i}"⟩ : CalendarItem)) ++
      (List.range (daysInMonthJS year month0)).map
        (fun k : Nat => (⟨.day, (k : Int) + 1, votingDateKey year month0 (k + 1)⟩ : CalendarItem)) ∧
    (votingDays year month0).length = firstDayOfWeekJS year month0 + daysInMonthJS year month0 ∧
    creationDays year month0 =
      (List.range (firstDayOfWeekJS year month0)).map
        (fun i => (⟨.empty, -1, s!"empty-{year}-{month0}-{i}"⟩ : CalendarItem)) ++
      (List.range (daysInMonthJS year month0)).map
        (fun k : Nat => (⟨.day, (k : Int) + 1, creationDateKey year month0 (k + 1)⟩ : CalendarItem)) ∧
    (creationDays year month0).length = firstDayOfWeekJS year month0 + daysInMonthJS year month0 := by
  refine ⟨votingDays_eq year month0, ?_, creationDays_eq year month0, ?_⟩ <;>
    simp [votingDays_eq, creationDays_eq]

/-- C2: for every year, 0-indexed month and day cell, the creation calendar
path builds the cell's DateKey (and the key toggled by its `handleDateClick`)
with the 0-indexed `getMonth()` value, while the voting calendar path builds
the key of the same calendar day with the 1-indexed `getMonth() + 1` value:
the voting key of month index `m` equals the creation key of month index
`m + 1`, so the month components differ by exactly one. -/
theorem c2_month_indexing (year month0 day k : Nat)
    (hk : k < daysInMonthJS year month0) :
    ((creationDays year month0).getD (firstDayOfWeekJS year month0 + k) default).id =
      creationDateKey year month0 (k + 1) ∧
    ((votingDays year month0).getD (firstDayOfWeekJS year month0 + k) default).id =
      votingDateKey year month0 (k + 1) ∧
    creationDateKey year month0 day = s!"{year}-{month0}-{day}" ∧
    votingDateKey year month0 day = s!"{year}-{month0 + 1}-{day}" ∧
    votingDateKey year month0 day = creationDateKey year (month0 + 1) day := by
  refine ⟨?_, ?_, rfl, rfl, rfl⟩
  · rw [creationDays_eq, List.getD_append_right]
    · simp only [List.length_map, List.length_range, Nat.add_sub_cancel_left]
      rw [List.getD_eq_getElem _ _ (by simpa using hk)]
      simp
    · simp
  · rw [votingDays_eq, List.getD_append_right]
    · simp only [List.length_map, List.length_range, Nat.add_sub_cancel_left]
      rw [List.getD_eq_getElem _ _ (by simpa using hk)]
      simp
    · simp

/-- Witness for C2 at June 2025 (month index 5), cell `k = 14` (June 15). -/
theorem c2_month_indexing_witness :
    (14 < daysInMonthJS 2025 5) ∧
    ((creationDays 2025 5).getD (firstDayOfWeekJS 2025 5 + 14) default).id = "2025-5-15" ∧
    ((votingDays 2025 5).getD (firstDayOfWeekJS 2025 5 + 14) default).id = "2025-6-15" := by
  have h := c2_month_indexing 2025 5 15 14 (by decide)
  exact ⟨by decide, h.1, h.2.1⟩

/-- C1 (failing-input evaluation): in November 2025 (month index 10,
`firstDayOfWeek = 6`, `daysInMonth = 30`) the grid cell at position 35 is the
`Day` cell of Sunday, November 30, and `35 % 7 = 0`, so it qualifies for the
day-of-week toggle with clicked index 0; with every November Sunday a
candidate and an empty selection at call entry, `handleDayOfWeekClick 0`
nevertheless returns a selection without `"2025-11-30"` — the loop bound
`i < daysInMonth - index` stops before the last partial week, so this
qualifying cell is skipped and its membership is not flipped. -/
theorem c1_column_toggle_skips_last_week :
    firstDayOfWeekJS 2025 10 = 6 ∧ daysInMonthJS 2025 10 = 30 ∧
    (votingDays 2025 10).getD 35 default =
      (⟨.day, 30, "2025-11-30"⟩ : CalendarItem) ∧
    35 % 7 = 0 ∧
    "2025-11-30" ∈ ["2025-11-2", "2025-11-9", "2025-11-16", "2025-11-23", "2025-11-30"] ∧
    handleDayOfWeekClick 2025 10
        ["2025-11-2", "2025-11-9", "2025-11-16", "2025-11-23", "2025-11-30"] [] 0 =
      ["2025-11-2", "2025-11-9", "2025-11-16", "2025-11-23"] ∧
    "2025-11-30" ∉ handleDayOfWeekClick 2025 10
        ["2025-11-2", "2025-11-9", "2025-11-16", "2025-11-23", "2025-11-30"] [] 0 := by
  decide

/-- C3: in the voting context, a single-day toggle whose key is not in
`candidateDates` leaves the selection unchanged; with the key a candidate it
flips exactly that key's membership and leaves every other key's membership
unchanged. -/
theorem c3_gated_single_toggle (year month0 day : Nat)
    (candidateDates selectedDates : List String) :
    (votingDateKey year month0 day ∉ candidateDates →
      handleDateClick year month0 candidateDates selectedDates day = selectedDates) ∧
    (votingDateKey year month0 day ∈ candidateDates →
      ((votingDateKey year month0 day ∈
          handleDateClick year month0 candidateDates selectedDates day ↔
        votingDateKey year month0 day ∉ selectedDates) ∧
      ∀ x : String, x ≠ votingDateKey year month0 day →
        (x ∈ handleDateClick year month0 candidateDates selectedDates day ↔
          x ∈ selectedDates))) := by
  constructor
  · intro h
    simp [handleDateClick, h]
  · intro h
    constructor
    · by_cases hs : votingDateKey year month0 day ∈ selectedDates <;>
        simp [handleDateClick, h, hs, setDelete, setAdd, List.mem_filter]
    · intro x hx
      by_cases hs : votingDateKey year month0 day ∈ selectedDates <;>
        simp [handleDateClick, h, hs, setDelete, setAdd, List.mem_filter, hx]

/-- Witness for C3: June 2025, day 2 (key `"2025-6-2"`), candidates
`{"2025-6-2", "2025-6-9"}`, selection `{"2025-6-9"}`. -/
theorem c3_gated_single_toggle_witness :
    "2025-6-2" ∈ (["2025-6-2", "2025-6-9"] : List String) ∧
    ("2025-6-2" ∈ handleDateClick 2025 5 ["2025-6-2", "2025-6-9"] ["2025-6-9"] 2 ↔
      "2025-6-2" ∉ (["2025-6-9"] : List String)) ∧
    ("2025-6-9" ∈ handleDateClick 2025 5 ["2025-6-2", "2025-6-9"] ["2025-6-9"] 2 ↔
      "2025-6-9" ∈ (["2025-6-9"] : List String)) := by
  have h := (c3_gated_single_toggle 2025 5 2 ["2025-6-2", "2025-6-9"] ["2025-6-9"]).2
    (by decide)
  exact ⟨by decide, h.1, h.2 "2025-6-9" (by decide)⟩

theorem jsSplit_ne_nil (sep : Char) (s : JStr) : jsSplit sep s ≠ [] := by
  induction s with
  | nil => simp [jsSplit]
  | cons c rest ih =>
    simp only [jsSplit]
    cases h : jsSplit sep rest with
    | nil => exact absurd h ih
    | cons p ps => by_cases hc : c = sep <;> simp [hc]

theorem not_mem_of_mem_jsSplit (sep : Char) (s : JStr) :
    ∀ p ∈ jsSplit sep s, sep ∉ p := by
  induction s with
  | nil =>
    intro p hp
    simp [jsSplit] at hp
    simp [hp]
  | cons c rest ih =>
    intro p hp
    simp only [jsSplit] at hp
    cases h : jsSplit sep rest with
    | nil => exact absurd h (jsSplit_ne_nil sep rest)
    | cons q qs =>
      rw [h] at hp
      by_cases hc : c = sep
      · simp only [hc, if_true, List.mem_cons] at hp
        rcases hp with hp | hp | hp
        · simp [hp]
        · exact hp ▸ ih q (h ▸ List.mem_cons_self q qs)
        · exact ih p (h ▸ List.mem_cons_of_mem q hp)
      · simp only [hc, if_false, List.mem_cons] at hp
        rcases hp with hp | hp
        · subst hp
          intro hmem
          rcases List.mem_cons.mp hmem with hmem | hmem
          · exact hc hmem.symm
          · exact ih q (h ▸ List.mem_cons_self q qs) hmem
        · exact ih p (h ▸ List.mem_cons_of_mem q hp)

theorem jsSplit_of_not_mem (sep : Char) (a : JStr) (ha : sep ∉ a) :
    jsSplit sep a = [a] := by
  induction a with
  | nil => rfl
  | cons c rest ih =>
    have h1 : sep ≠ c ∧ sep ∉ rest := by simpa using ha
    simp only [jsSplit, ih h1.2]
    rw [if_neg (fun h => h1.1 h.symm)]

theorem jsSplit_append (sep : Char) (a b : JStr) (ha : sep ∉ a) :
    jsSplit sep (a ++ sep :: b) = a :: jsSplit sep b := by
  induction a with
  | nil =>
    simp only [List.nil_append, jsSplit]
    cases h : jsSplit sep b with
    | nil => exact absurd h (jsSplit_ne_nil sep b)
    | cons p ps => simp
  | cons c rest ih =>
    have h1 : sep ≠ c ∧ sep ∉ rest := by simpa using ha
    have ih2 := ih h1.2
    show jsSplit sep (c :: (rest ++ sep :: b)) = (c :: rest) :: jsSplit sep b
    rw [jsSplit, ih2]
    show (if c = sep then [] :: rest :: jsSplit sep b else (c :: rest) :: jsSplit sep b) =
      (c :: rest) :: jsSplit sep b
    rw [if_neg (fun h => h1.1 h.symm)]

theorem two_le_padStart2_length (s : JStr) : 2 ≤ (padStart2 s).length := by
  unfold padStart2
  split
  · assumption
  · simp only [List.length_append, List.length_replicate]
    omega

theorem padStart2_of_two_le (s : JStr) (h : 2 ≤ s.length) : padStart2 s = s :=
  if_pos h

theorem padStart2_idem (s : JStr) : padStart2 (padStart2 s) = padStart2 s :=
  padStart2_of_two_le _ (two_le_padStart2_length s)

theorem not_mem_padStart2 (c : Char) (s : JStr) (h : c ∉ s) (h0 : c ≠ '0') :
    c ∉ padStart2 s := by
  unfold padStart2
  split
  · exact h
  · intro hmem
    rcases List.mem_append.mp hmem with hmem | hmem
    · exact h0 (List.eq_of_mem_replicate hmem)
    · exact h hmem

/-- C9: `normalizeDateFormat` and `normalizeTimeFormat` are idempotent on
every input string, and they zero-pad the numeric components without any
range validation (`"2025-1-5"` becomes `"2025-01-05"`, `"9:5"` becomes
`"09:05"`, and the out-of-range `"2025-99-99"` is padded unchanged). -/
theorem c9_normalize_idempotent :
    (∀ s : JStr, normalizeDateFormat (normalizeDateFormat s) = normalizeDateFormat s) ∧
    (∀ s : JStr, normalizeTimeFormat (normalizeTimeFormat s) = normalizeTimeFormat s) ∧
    normalizeDateFormat ("2025-1-5").data = ("2025-01-05").data ∧
    normalizeTimeFormat ("9:5").data = ("09:05").data ∧
    normalizeDateFormat ("2025-99-99").data = ("2025-99-99").data := by
  refine ⟨?_, ?_, by decide, by decide, by decide⟩
  · intro s
    rcases h : jsSplit '-' s with _ | ⟨y, _ | ⟨m, _ | ⟨d, _ | ⟨e, rest⟩⟩⟩⟩
    case cons.cons.cons.nil =>
      have hy : '-' ∉ y := not_mem_of_mem_jsSplit '-' s y (h ▸ by simp)
      have hm : '-' ∉ m := not_mem_of_mem_jsSplit '-' s m (h ▸ by simp)
      have hd : '-' ∉ d := not_mem_of_mem_jsSplit '-' s d (h ▸ by simp)
      have hm2 : '-' ∉ padStart2 m := not_mem_padStart2 '-' m hm (by decide)
      have hd2 : '-' ∉ padStart2 d := not_mem_padStart2 '-' d hd (by decide)
      have e1 : normalizeDateFormat s = y ++ '-' :: (padStart2 m ++ '-' :: padStart2 d) := by
        rw [normalizeDateFormat, h]
      rw [e1, normalizeDateFormat, jsSplit_append '-' y _ hy,
        jsSplit_append '-' (padStart2 m) _ hm2, jsSplit_of_not_mem '-' (padStart2 d) hd2]
      simp [padStart2_idem]
    all_goals
      have e1 : normalizeDateFormat s = s := by rw [normalizeDateFormat, h]
      rw [e1, e1]
  · intro s
    rcases h : jsSplit ':' s with _ | ⟨hh, _ | ⟨mm, _ | ⟨e, rest⟩⟩⟩
    case cons.cons.nil =>
      have hh1 : ':' ∉ hh := not_mem_of_mem_jsSplit ':' s hh (h ▸ by simp)
      have hm1 : ':' ∉ mm := not_mem_of_mem_jsSplit ':' s mm (h ▸ by simp)
      have hh2 : ':' ∉ padStart2 hh := not_mem_padStart2 ':' hh hh1 (by decide)
      have hm2 : ':' ∉ padStart2 mm := not_mem_padStart2 ':' mm hm1 (by decide)
      have e1 : normalizeTimeFormat s = padStart2 hh ++ ':' :: padStart2 mm := by
        rw [normalizeTimeFormat, h]
      rw [e1, normalizeTimeFormat, jsSplit_append ':' (padStart2 hh) _ hh2,
        jsSplit_of_not_mem ':' (padStart2 mm) hm2]
      simp [padStart2_idem]
    all_goals
      have e1 : normalizeTimeFormat s = s := by rw [normalizeTimeFormat, h]
      rw [e1, e1]

theorem jsYear_eq_self_iff (y : Nat) : jsYear y = y ↔ 100 ≤ y := by
  by_cases hy : y ≤ 99 <;> simp [jsYear, hy] <;> omega

/-- C6 (counterexample): the claim's characterization — pattern match, month
in `[1, 12]`, day in `[1, daysInMonth]` for the actual month length — holds
at `"0001-01-01"` (the pattern parses to `(1, 1, 1)` and January has 31
days), yet `isValidDate "0001-01-01"` is `false`: the round-trip check goes
through `new Date(1, 0, 1)`, whose two-digit-year rule turns year 1 into
1901, so `getFullYear()` does not equal the parsed year. -/
theorem c6_counterexample_year_below_100 :
    isValidDate ("0001-01-01").data = false ∧
    parseDate3 ("0001-01-01").data = some (1, 1, 1) ∧
    1 ≤ (1 : Nat) ∧ (1 : Nat) ≤ 12 ∧ 1 ≤ (1 : Nat) ∧ (1 : Nat) ≤ monthLength 1 1 := by
  decide

/-- C6 (amended): `isValidDate s` is `true` iff `s` matches
`\d{4}-\d{1,2}-\d{1,2}` (equivalently, `parseDate3` succeeds), the month is
in `[1, 12]`, the day is in `[1, daysInMonth(year, month)]` for the actual
month length (leap years respected), and additionally the year component is
at least 100 (for smaller four-digit years the `Date` constructor's
two-digit-year rule makes the round-trip check fail); in particular
`isValidDate "2025-02-29"` is `false`, `isValidDate "2024-02-29"` is `true`,
and `isValidDate "2025-13-01"` is `false`. -/
theorem c6_isValidDate_characterization :
    (∀ s : JStr, isValidDate s = true ↔
      (∃ y m d, parseDate3 s = some (y, m, d) ∧
        1 ≤ m ∧ m ≤ 12 ∧ 1 ≤ d ∧ d ≤ monthLength y m ∧ 100 ≤ y)) ∧
    isValidDate ("2025-02-29").data = false ∧
    isValidDate ("2024-02-29").data = true ∧
    isValidDate ("2025-13-01").data = false := by
  refine ⟨?_, by decide, by decide, by decide⟩
  intro s
  rcases hp : parseDate3 s with _ | ⟨y, m, d⟩
  · simp [isValidDate, hp]
  · have hiv : isValidDate s = true ↔
        (1 ≤ m ∧ m ≤ 12 ∧ 1 ≤ d ∧ d ≤ monthLength (jsYear y) m ∧ jsYear y = y) := by
      simp only [isValidDate, hp, jsDateYMD, Bool.or_eq_true, decide_eq_true_eq]
      split_ifs with h1 h2
      · constructor
        · intro h; exact absurd h (by simp)
        · intro h; omega
      · constructor
        · intro h; exact absurd h (by simp)
        · intro h; omega
      · simp only [decide_eq_true_eq]
        constructor
        · rintro ⟨hy, -, -⟩
          exact ⟨by omega, by omega, by omega, by omega, hy⟩
        · rintro ⟨-, -, -, -, hy⟩
          exact ⟨hy, trivial, trivial⟩
    rw [hiv]
    constructor
    · rintro ⟨h1, h2, h3, h4, h5⟩
      refine ⟨y, m, d, rfl, h1, h2, h3, ?_, (jsYear_eq_self_iff y).mp h5⟩
      rwa [h5] at h4
    · rintro ⟨y', m', d', heq, hm1, hm2, hd1, hd2, hy100⟩
      obtain ⟨hy', hm', hd'⟩ : y' = y ∧ m' = m ∧ d' = d := by
        simpa using heq.symm
      rw [hy'] at hy100
      rw [hy', hm'] at hd2
      rw [hm'] at hm1 hm2
      rw [hd'] at hd1 hd2
      have hjs : jsYear y = y := (jsYear_eq_self_iff y).mpr hy100
      rw [hjs]
      exact ⟨hm1, hm2, hd1, hd2, rfl⟩

/-- Witness for the C6 characterization at `"2024-02-29"`. -/
theorem c6_isValidDate_characterization_witness :
    isValidDate ("2024-02-29").data = true := by
  exact (c6_isValidDate_characterization.1 ("2024-02-29").data).mpr
    ⟨2024, 2, 29, by decide, by decide, by decide, by decide, by decide, by decide⟩

theorem natDigitsRev_spec (fuel n : Nat) (h : n < fuel) :
    natDigitsRev fuel n ≠ [] ∧ (∀ d ∈ natDigitsRev fuel n, d < 10) ∧
      (natDigitsRev fuel n).foldr (fun d acc => d + 10 * acc) 0 = n := by
  induction fuel generalizing n with
  | zero => omega
  | succ f ih =>
    by_cases h10 : n < 10
    · simp only [natDigitsRev, if_pos h10]
      refine ⟨by simp, ?_, ?_⟩
      · intro d hd
        rcases List.mem_cons.mp hd with hd | hd
        · omega
        · simp at hd
      · simp only [List.foldr_cons, List.foldr_nil]
        omega
    · have hlt : n / 10 < f := by omega
      obtain ⟨h1, h2, h3⟩ := ih (n / 10) hlt
      simp only [natDigitsRev, if_neg h10]
      refine ⟨by simp, ?_, ?_⟩
      · intro d hd
        rcases List.mem_cons.mp hd with hd | hd
        · omega
        · exact h2 d hd
      · simp only [List.foldr_cons, h3]
        omega

theorem digitsVal_append_singleton (a : JStr) (c : Char) :
    digitsVal (a ++ [c]) = 10 * digitsVal a + digitVal c := by
  simp [digitsVal, List.foldl_append]

theorem digitVal_ofNat (d : Nat) (h : d < 10) :
    digitVal (Char.ofNat (d + '0'.toNat)) = d := by
  interval_cases d <;> decide

theorem isDigit_ofNat (d : Nat) (h : d < 10) :
    (Char.ofNat (d + '0'.toNat)).isDigit = true := by
  interval_cases d <;> decide

theorem digitsVal_rev_digits (l : List Nat) (h : ∀ d ∈ l, d < 10) :
    digitsVal (l.reverse.map (fun d => Char.ofNat (d + '0'.toNat))) =
      l.foldr (fun d acc => d + 10 * acc) 0 := by
  induction l with
  | nil => rfl
  | cons d rest ih =>
    have hd : d < 10 := h d (List.mem_cons_self d rest)
    have hrest : ∀ x ∈ rest, x < 10 := fun x hx => h x (List.mem_cons_of_mem d hx)
    simp only [List.reverse_cons, List.map_append, List.map_cons, List.map_nil,
      digitsVal_append_singleton, ih hrest, List.foldr_cons, digitVal_ofNat d hd]
    omega

theorem natToChars_spec (n : Nat) :
    natToChars n ≠ [] ∧ (∀ c ∈ natToChars n, c.isDigit = true) ∧
      digitsVal (natToChars n) = n := by
  obtain ⟨h1, h2, h3⟩ := natDigitsRev_spec (n + 1) n (by omega)
  refine ⟨?_, ?_, ?_⟩
  · simp [natToChars]
    intro hc
    exact h1 (by simpa using hc)
  · intro c hc
    simp only [natToChars, List.mem_map, List.mem_reverse] at hc
    obtain ⟨d, hd, rfl⟩ := hc
    exact isDigit_ofNat d (h2 d hd)
  · rw [natToChars, digitsVal_rev_digits _ h2, h3]

theorem digit_ne_dash (c : Char) (h : c.isDigit = true) : c ≠ '-' := by
  intro hc
  rw [hc] at h
  exact absurd h (by decide)

theorem digit_ne_colon (c : Char) (h : c.isDigit = true) : c ≠ ':' := by
  intro hc
  rw [hc] at h
  exact absurd h (by decide)

theorem jsParseInt_all_digits (s : JStr) (hne : s ≠ [])
    (hd : ∀ c ∈ s, c.isDigit = true) : jsParseInt s = some (digitsVal s) := by
  match s, hne with
  | c :: rest, _ =>
    have hc : c.isDigit = true := hd c (List.mem_cons_self c rest)
    simp only [jsParseInt, hc, if_true]
    rw [List.takeWhile_eq_self_iff.mpr hd]

theorem digitsVal_replicate_zero (k : Nat) (l : JStr) :
    digitsVal (List.replicate k '0' ++ l) = digitsVal l := by
  induction k with
  | zero => simp
  | succ j ih =>
    simp only [List.replicate_succ, List.cons_append]
    show digitsVal ('0' :: (List.replicate j '0' ++ l)) = digitsVal l
    simp only [digitsVal, List.foldl_cons] at ih ⊢
    simpa using ih

theorem padStart2_all_digits (s : JStr) (hd : ∀ c ∈ s, c.isDigit = true) :
    ∀ c ∈ padStart2 s, c.isDigit = true := by
  intro c hc
  unfold padStart2 at hc
  split at hc
  · exact hd c hc
  · rcases List.mem_append.mp hc with hc | hc
    · rw [List.eq_of_mem_replicate hc]
      decide
    · exact hd c hc

theorem padStart2_ne_nil (s : JStr) : padStart2 s ≠ [] := by
  have := two_le_padStart2_length s
  intro h
  rw [h] at this
  simp at this

theorem digitsVal_padStart2 (s : JStr) : digitsVal (padStart2 s) = digitsVal s := by
  unfold padStart2
  split
  · rfl
  · exact digitsVal_replicate_zero _ s

theorem jsParseInt_padStart2_natToChars (n : Nat) :
    jsParseInt (padStart2 (natToChars n)) = some n := by
  obtain ⟨h1, h2, h3⟩ := natToChars_spec n
  rw [jsParseInt_all_digits _ (padStart2_ne_nil _) (padStart2_all_digits _ h2),
    digitsVal_padStart2, h3]

theorem jsParseInt_natToChars (n : Nat) : jsParseInt (natToChars n) = some n := by
  obtain ⟨h1, h2, h3⟩ := natToChars_spec n
  rw [jsParseInt_all_digits _ h1 h2, h3]

theorem dash_not_mem_natToChars (n : Nat) : '-' ∉ natToChars n := by
  intro h
  exact digit_ne_dash '-' ((natToChars_spec n).2.1 '-' h) rfl

theorem colon_not_mem_natToChars (n : Nat) : ':' ∉ natToChars n := by
  intro h
  exact digit_ne_colon ':' ((natToChars_spec n).2.1 ':' h) rfl

theorem dash_not_mem_padStart2_natToChars (n : Nat) : '-' ∉ padStart2 (natToChars n) := by
  intro h
  exact digit_ne_dash '-' (padStart2_all_digits _ (natToChars_spec n).2.1 '-' h) rfl

theorem colon_not_mem_padStart2_natToChars (n : Nat) : ':' ∉ padStart2 (natToChars n) := by
  intro h
  exact digit_ne_colon ':' (padStart2_all_digits _ (natToChars_spec n).2.1 ':' h) rfl

/-- C8 (counterexample): the round-trip law fails at the valid instant
`0050-06-15 09:30:00.000` (seconds and milliseconds zero): the date string
renders as `"50-06-15"`, and re-decoding goes through the `Date`
constructor's two-digit-year rule, yielding year 1950 instead of 50. -/
theorem c8_counterexample_year_below_100 :
    (⟨50, 5, 15, 9, 30, 0, 0⟩ : CivilDT).valid ∧
    dateToDateString (⟨50, 5, 15, 9, 30, 0, 0⟩ : CivilDT) = ("50-06-15").data ∧
    dateTimeStringsToDate (dateToDateString (⟨50, 5, 15, 9, 30, 0, 0⟩ : CivilDT))
        (dateToTimeString (⟨50, 5, 15, 9, 30, 0, 0⟩ : CivilDT)) =
      some (⟨1950, 5, 15, 9, 30, 0, 0⟩ : CivilDT) ∧
    dateTimeStringsToDate (dateToDateString (⟨50, 5, 15, 9, 30, 0, 0⟩ : CivilDT))
        (dateToTimeString (⟨50, 5, 15, 9, 30, 0, 0⟩ : CivilDT)) ≠
      some (⟨50, 5, 15, 9, 30, 0, 0⟩ : CivilDT) := by
  decide

theorem roundtrip_of_valid_year_ge_100 (x : CivilDT) (hv : x.valid) (hs : x.second = 0)
    (hms : x.ms = 0) (hy : 100 ≤ x.year) :
    dateTimeStringsToDate (dateToDateString x) (dateToTimeString x) = some x := by
  obtain ⟨y, mi, d, hh, mm, sec, ms⟩ := x
  obtain ⟨hv1, hv2, hv3, hv4, hv5, -, -⟩ := hv
  simp only at hs hms hy hv1 hv2 hv3 hv4 hv5
  subst hs; subst hms
  show dateTimeStringsToDate
    (natToChars y ++ '-' :: (padStart2 (natToChars (mi + 1)) ++ '-' :: padStart2 (natToChars d)))
    (padStart2 (natToChars hh) ++ ':' :: padStart2 (natToChars mm)) = _
  rw [dateTimeStringsToDate,
    jsSplit_append '-' (natToChars y) _ (dash_not_mem_natToChars y),
    jsSplit_append '-' (padStart2 (natToChars (mi + 1))) _ (dash_not_mem_padStart2_natToChars _),
    jsSplit_of_not_mem '-' (padStart2 (natToChars d)) (dash_not_mem_padStart2_natToChars _),
    jsSplit_append ':' (padStart2 (natToChars hh)) _ (colon_not_mem_padStart2_natToChars _),
    jsSplit_of_not_mem ':' (padStart2 (natToChars mm)) (colon_not_mem_padStart2_natToChars _)]
  simp only [List.getD_cons_zero, List.getD_cons_succ, jsParseInt_natToChars,
    jsParseInt_padStart2_natToChars]
  have hjy : jsYear y = y := (jsYear_eq_self_iff y).mpr hy
  rw [if_pos]
  · simp [hjy]
  · refine ⟨by omega, by omega, hv2, ?_, hv4, hv5⟩
    rw [hjy]
    exact hv3

/-- C8 (amended): for every valid instant with zero sub-minute precision
whose local calendar year is at least 100, converting it to a local date
string and a local time string and decoding both back yields the same
instant; years below 100 must be excluded because `` `${year}` `` renders
them unpadded and the `Date` constructor maps a year value of 0-99 to
1900 + year on the way back.  In particular, decoding date `"2025-06-15"`
and time `"09:30"` and projecting the instant back yields the original
strings. -/
theorem c8_roundtrip_amended :
    (∀ x : CivilDT, x.valid → x.second = 0 → x.ms = 0 → 100 ≤ x.year →
      dateTimeStringsToDate (dateToDateString x) (dateToTimeString x) = some x) ∧
    (dateTimeStringsToDate ("2025-06-15").data ("09:30").data).map dateToDateString =
      some (("2025-06-15").data) ∧
    (dateTimeStringsToDate ("2025-06-15").data ("09:30").data).map dateToTimeString =
      some (("09:30").data) :=
  ⟨fun x hv hs hms hy => roundtrip_of_valid_year_ge_100 x hv hs hms hy, by decide, by decide⟩

/-- Witness for C8 at the instant `2025-06-15 09:30` local time. -/
theorem c8_roundtrip_amended_witness :
    dateTimeStringsToDate (dateToDateString ⟨2025, 5, 15, 9, 30, 0, 0⟩)
      (dateToTimeString ⟨2025, 5, 15, 9, 30, 0, 0⟩) = some ⟨2025, 5, 15, 9, 30, 0, 0⟩ :=
  c8_roundtrip_amended.1 ⟨2025, 5, 15, 9, 30, 0, 0⟩ (by decide) rfl rfl (by decide)

theorem CivilDT.le_refl (a : CivilDT) : a.le a = true := by
  simp [CivilDT.le]

/-- C5: whenever `deadline.enable` is true and the instant decoded from
`deadline.date` and `deadline.time` is less than or equal to the current
instant, `handleSave` returns without issuing any settings API call; and the
deciding predicate `isPastDateTime(dateStr, timeStr)` returns `true` exactly
when the decoded local-wall-clock instant is ≤ `now`, the boundary being
inclusive of `now` itself. -/
theorem c5_save_rejected_when_past :
    (∀ (now : CivilDT) (jsonError : JStr) (eventId : Option String)
        (initialAllow : Bool) (s : VSettings) (t : CivilDT),
      s.deadlineEnable = true →
      dateTimeStringsToDate s.deadlineDate s.deadlineTime = some t →
      t.le now = true →
      apiCallOf (handleSave now jsonError eventId initialAllow (.ok s)) = none) ∧
    (∀ (now : CivilDT) (dateStr timeStr : JStr) (t : CivilDT),
      dateTimeStringsToDate dateStr timeStr = some t →
      (isPastDateTime now dateStr timeStr = true ↔ t.le now = true)) ∧
    (∀ (now : CivilDT) (dateStr timeStr : JStr),
      dateTimeStringsToDate dateStr timeStr = some now →
      isPastDateTime now dateStr timeStr = true) := by
  have hpast : ∀ (now : CivilDT) (dateStr timeStr : JStr) (t : CivilDT),
      dateTimeStringsToDate dateStr timeStr = some t →
      isPastDateTime now dateStr timeStr = t.le now := by
    intro now ds ts t hd
    rw [isPastDateTime, hd]
  refine ⟨?_, ?_, ?_⟩
  · intro now je eid allow s t he hd hle
    have hp : isPastDateTime now s.deadlineDate s.deadlineTime = true := by
      rw [hpast now _ _ t hd, hle]
    simp only [handleSave, he, hp, Bool.and_self]
    split_ifs <;> rfl
  · intro now ds ts t hd
    rw [hpast now ds ts t hd]
  · intro now ds ts hd
    rw [hpast now ds ts now hd]
    exact CivilDT.le_refl now

/-- Witness for C5: a save at `now = 2025-06-15 10:00` with an enabled
deadline of `2025-06-15 09:30` issues no settings API call. -/
theorem c5_save_rejected_when_past_witness :
    apiCallOf (handleSave ⟨2025, 5, 15, 10, 0, 0, 0⟩ [] (some "ev1") true
      (.ok ⟨true, true, ("2025-06-15").data, ("09:30").data, true, some 3, false⟩)) = none :=
  c5_save_rejected_when_past.1 ⟨2025, 5, 15, 10, 0, 0, 0⟩ [] (some "ev1") true
    ⟨true, true, ("2025-06-15").data, ("09:30").data, true, some 3, false⟩
    ⟨2025, 5, 15, 9, 30, 0, 0⟩ rfl (by decide) (by decide)

theorem UIState.structEq_refl (a : UIState) : a.structEq a := by
  simp [UIState.structEq]

theorem UIState.structEq_trans {a b c : UIState} (h1 : a.structEq b) (h2 : b.structEq c) :
    a.structEq c := by
  unfold UIState.structEq at *
  obtain ⟨e1, e2, e3, e4, e5, e6, e7⟩ := h1
  obtain ⟨f1, f2, f3, f4, f5, f6, f7⟩ := h2
  exact ⟨e1.trans f1, e2.trans f2, e3.trans f3, e4.trans f4, e5.trans f5,
    e6.trans f6, e7.trans f7⟩

theorem structEq_set_jsonError (st : UIState) (m : JStr) :
    ({ st with jsonError := m } : UIState).structEq st := by
  simp [UIState.structEq]

theorem structEq_enter_editing (prev : UIState) (value : JStr) :
    ({ prev with jsonText := value, isJsonEditing := true } : UIState).structEq prev := by
  simp [UIState.structEq]

theorem jsonChangeFinish_eq (st : UIState) (parsed : JValue) :
    jsonChangeFinish st parsed =
      match specValidationTail parsed with
      | some m => { st with jsonError := m }
      | none =>
        match normalizeDateFieldJS (optGetF (parsed.getF "deadline") "date") with
        | .error m => { st with jsonError := m }
        | .ok normalizedDate =>
          match normalizeTimeFieldJS (optGetF (parsed.getF "deadline") "time") with
          | .error m => { st with jsonError := m }
          | .ok normalizedTime =>
            { st with
              allowSettingChanges := boolOfV (parsed.getF "allowSettingChanges"),
              enableDeadline := boolOfV (optGetF (parsed.getF "deadline") "enable"),
              deadlineDate := normalizedDate,
              deadlineTime := normalizedTime,
              enableAutoDecision := boolOfV (optGetF (parsed.getF "autoDecision") "enable"),
              threshold := (match optGetF (parsed.getF "autoDecision") "threshold" with
                | some (.jnum n) => n
                | _ => st.threshold),
              enableRss := boolOfV (optGetF (parsed.getF "rss") "enable"),
              jsonError := [] } := by
  unfold jsonChangeFinish specValidationTail
  split_ifs <;> rfl

set_option maxHeartbeats 1600000 in
theorem jsonChangeValidate_eq (now : CivilDT) (st : UIState) (parsed : JValue) :
    jsonChangeValidate now st parsed =
      match specFieldTable now parsed with
      | some m => { st with jsonError := m }
      | none => jsonChangeFinish st parsed := by
  unfold jsonChangeValidate specFieldTable
  split_ifs <;>
    first
      | rfl
      | (rcases htail : specValidationTail parsed with _ | m
         · rw [jsonChangeFinish_eq, htail]
         · rw [jsonChangeFinish_eq, htail])

theorem jsonChangeValidate_of_table (now : CivilDT) (st : UIState) (parsed : JValue)
    (msg : JStr) (h : specFieldTable now parsed = some msg) :
    (jsonChangeValidate now st parsed).jsonError = msg ∧
      (jsonChangeValidate now st parsed).structEq st := by
  rw [jsonChangeValidate_eq, h]
  exact ⟨rfl, structEq_set_jsonError st msg⟩

theorem jsonChangeValidate_err_retains (now : CivilDT) (st : UIState) (parsed : JValue)
    (h : (jsonChangeValidate now st parsed).jsonError ≠ []) :
    (jsonChangeValidate now st parsed).structEq st := by
  rw [jsonChangeValidate_eq] at h ⊢
  cases ht : specFieldTable now parsed with
  | some m =>
    exact structEq_set_jsonError st m
  | none =>
    rw [ht] at h
    show (jsonChangeFinish st parsed).structEq st
    rw [jsonChangeFinish_eq] at h ⊢
    cases htail : specValidationTail parsed with
    | some m =>
      exact structEq_set_jsonError st m
    | none =>
      rw [htail] at h
      rcases hnd : normalizeDateFieldJS (optGetF (parsed.getF "deadline") "date") with m | nd
      · exact structEq_set_jsonError st m
      · rw [hnd] at h
        rcases hnt : normalizeTimeFieldJS (optGetF (parsed.getF "deadline") "time") with m | nt
        · exact structEq_set_jsonError st m
        · rw [hnt] at h
          simp at h

/-- C4: for every input to `handleJsonChange` whose JSON parse fails or whose
field validation fails (wrong type, invalid date or time, past deadline,
missing required object), none of the Structured settings fields
(`allowSettingChanges`, `deadline.enable/date/time`, `autoDecision.enable`,
`threshold`, `rss.enable`) is modified — the previously derived Structured
values are all retained — and `jsonError` is set to the failure's message;
moreover on any call whose resulting `jsonError` is non-empty (including a
normalization throw after a passing table) every Structured field is
retained, so an update is never partially applied. -/
theorem c4_json_change_atomic :
    (∀ (now : CivilDT) (prev : UIState) (value : JStr) (pr : Except JStr JValue)
        (msg : JStr),
      specFieldValidationError now pr = some msg →
      (handleJsonChange now prev value pr).jsonError = msg ∧
      (handleJsonChange now prev value pr).structEq prev) ∧
    (∀ (now : CivilDT) (prev : UIState) (value : JStr) (pr : Except JStr JValue),
      (handleJsonChange now prev value pr).jsonError ≠ [] →
      (handleJsonChange now prev value pr).structEq prev) := by
  constructor
  · intro now prev value pr msg h
    cases pr with
    | error e =>
      obtain rfl : e = msg := by simpa [specFieldValidationError] using h
      exact ⟨rfl, UIState.structEq_trans (structEq_set_jsonError _ _)
        (structEq_enter_editing prev value)⟩
    | ok parsed =>
      cases parsed
      case jnull =>
        obtain rfl : msgNullAccess = msg := by simpa [specFieldValidationError] using h
        exact ⟨rfl, UIState.structEq_trans (structEq_set_jsonError _ _)
          (structEq_enter_editing prev value)⟩
      all_goals
        obtain ⟨h1, h2⟩ := jsonChangeValidate_of_table now
          { prev with jsonText := value, isJsonEditing := true } _ msg
          (by simpa [specFieldValidationError] using h)
        exact ⟨h1, UIState.structEq_trans h2 (structEq_enter_editing prev value)⟩
  · intro now prev value pr h
    cases pr with
    | error e =>
      exact UIState.structEq_trans (structEq_set_jsonError _ _)
        (structEq_enter_editing prev value)
    | ok parsed =>
      cases parsed
      case jnull =>
        exact UIState.structEq_trans (structEq_set_jsonError _ _)
          (structEq_enter_editing prev value)
      all_goals
        exact UIState.structEq_trans
          (jsonChangeValidate_err_retains now _ _ h)
          (structEq_enter_editing prev value)

/-- Witness for C4: a document missing `allowSettingChanges` (an empty JSON
object) fails the first validation row; the handler stores that message and
every Structured field keeps its previous value. -/
theorem c4_json_change_atomic_witness :
    specFieldValidationError ⟨2025, 5, 15, 10, 0, 0, 0⟩ (.ok (.jobj [])) =
      some msgAllowBool ∧
    (handleJsonChange ⟨2025, 5, 15, 10, 0, 0, 0⟩
        ⟨true, true, ("2025-06-20").data, ("23:59").data, true, 3, false, [], [], false⟩
        ("x").data (.ok (.jobj []))).jsonError = msgAllowBool ∧
    (handleJsonChange ⟨2025, 5, 15, 10, 0, 0, 0⟩
        ⟨true, true, ("2025-06-20").data, ("23:59").data, true, 3, false, [], [], false⟩
        ("x").data (.ok (.jobj []))).structEq
      ⟨true, true, ("2025-06-20").data, ("23:59").data, true, 3, false, [], [], false⟩ := by
  have h := c4_json_change_atomic.1 ⟨2025, 5, 15, 10, 0, 0, 0⟩
    ⟨true, true, ("2025-06-20").data, ("23:59").data, true, 3, false, [], [], false⟩
    ("x").data (.ok (.jobj [])) msgAllowBool rfl
  exact ⟨rfl, h.1, h.2⟩

theorem lookup_eq_none_iff {α β : Type} [BEq α] [LawfulBEq α] (l : List (α × β)) (k : α) :
    l.lookup k = none ↔ k ∉ l.map Prod.fst := by
  induction l with
  | nil => simp
  | cons p rest ih =>
    obtain ⟨a, b⟩ := p
    rw [List.lookup_cons]
    by_cases hk : k = a
    · subst hk
      simp
    · have : (k == a) = false := beq_false_of_ne hk
      simp [this, ih, hk]

theorem lookup_eq_some_iff {α β : Type} [BEq α] [LawfulBEq α] (l : List (α × β))
    (hk : (l.map Prod.fst).Nodup) (k : α) (v : β) :
    l.lookup k = some v ↔ (k, v) ∈ l := by
  induction l with
  | nil => simp
  | cons p rest ih =>
    obtain ⟨a, b⟩ := p
    simp only [List.map_cons, List.nodup_cons] at hk
    rw [List.lookup_cons]
    by_cases hka : k = a
    · subst hka
      simp only [beq_self_eq_true]
      constructor
      · intro h
        simp at h
        simp [h]
      · intro h
        rcases List.mem_cons.mp h with h | h
        · simp at h
          simp [h]
        · exact absurd (List.mem_map.mpr ⟨(k, v), h, rfl⟩) hk.1
    · have hbeq : (k == a) = false := beq_false_of_ne hka
      simp only [hbeq]
      rw [ih hk.2]
      constructor
      · exact fun h => List.mem_cons_of_mem _ h
      · intro h
        rcases List.mem_cons.mp h with h | h
        · exact absurd (congrArg Prod.fst h) hka
        · exact h

theorem mapSet_map_fst {α β : Type} [DecidableEq α] (m : List (α × β)) (k : α) (v : β) :
    (mapSet m k v).map Prod.fst =
      if k ∈ m.map Prod.fst then m.map Prod.fst else m.map Prod.fst ++ [k] := by
  unfold mapSet
  by_cases hk : k ∈ m.map Prod.fst
  · have : (m.lookup k).isSome := by
      rcases ho : m.lookup k with _ | v'
      · rw [lookup_eq_none_iff] at ho
        exact absurd hk ho
      · rfl
    rw [if_pos this, if_pos hk]
    rw [List.map_map]
    apply List.map_congr_left
    intro p hp
    by_cases hpk : p.1 = k <;> simp [hpk]
  · have : ¬ (m.lookup k).isSome := by
      rw [(lookup_eq_none_iff m k).mpr hk]
      simp
    rw [if_neg this, if_neg hk]
    simp

theorem mapSet_mem_sub {α β : Type} [DecidableEq α] (m : List (α × β)) (k : α) (v : β) :
    ∀ p ∈ mapSet m k v, p ∈ m ∨ p = (k, v) := by
  intro p hp
  unfold mapSet at hp
  split_ifs at hp
  · rcases List.mem_map.mp hp with ⟨q, hq, hqe⟩
    by_cases hqk : q.1 = k
    · right
      rw [← hqe]
      simp [hqk]
    · left
      rw [← hqe]
      simpa [hqk] using hq
  · rcases List.mem_append.mp hp with hp | hp
    · exact Or.inl hp
    · exact Or.inr (by simpa using hp)

theorem foldl_pair_split {α β γ : Type} (f : β → α → β) (g : γ → α → γ) (l : List α)
    (b : β) (c : γ) :
    l.foldl (fun st x => (f st.1 x, g st.2 x)) (b, c) = (l.foldl f b, l.foldl g c) := by
  induction l generalizing b c with
  | nil => rfl
  | cons x xs ih => simp [List.foldl_cons, ih]

theorem setAdd_foldl_of_nodup (ks : List String) (acc : List String)
    (h : (acc ++ ks).Nodup) : ks.foldl setAdd acc = acc ++ ks := by
  induction ks generalizing acc with
  | nil => simp
  | cons k rest ih =>
    have hk : k ∉ acc := by
      rw [List.nodup_append] at h
      exact fun hmem => (h.2.2 hmem) (List.mem_cons_self k rest)
    rw [List.foldl_cons]
    show rest.foldl setAdd (setAdd acc k) = acc ++ k :: rest
    rw [setAdd, if_neg hk]
    have h2 : ((acc ++ [k]) ++ rest).Nodup := by simpa using h
    rw [ih (acc ++ [k]) h2]
    simp

theorem buildCandState_eq (cds : List (Int × String)) :
    buildCandState cds =
      (cds.foldl (fun s cd => setAdd s cd.2) [],
        cds.foldl (fun m cd => mapSet m cd.1 cd.2) []) := by
  unfold buildCandState
  exact foldl_pair_split (fun s cd => setAdd s cd.2) (fun m cd => mapSet m cd.1 cd.2) cds [] []

theorem buildCandState_fst (cds : List (Int × String))
    (h : (cds.map Prod.snd).Nodup) :
    (buildCandState cds).1 = cds.map Prod.snd := by
  rw [buildCandState_eq]
  show cds.foldl (fun s cd => setAdd s cd.2) [] = cds.map Prod.snd
  rw [← List.foldl_map (f := Prod.snd) (g := setAdd)]
  exact setAdd_foldl_of_nodup _ [] (by simpa using h)

theorem mapSet_foldl_fst_nodup (l : List (Int × String)) (acc : List (Int × String))
    (h : (acc.map Prod.fst).Nodup) :
    ((l.foldl (fun m cd => mapSet m cd.1 cd.2) acc).map Prod.fst).Nodup := by
  induction l generalizing acc with
  | nil => exact h
  | cons cd rest ih =>
    rw [List.foldl_cons]
    apply ih
    rw [mapSet_map_fst]
    split_ifs with hmem
    · exact h
    · simp [List.nodup_append, h, hmem]

theorem buildIdMap_fst_nodup (cds : List (Int × String)) :
    (((buildCandState cds).2).map Prod.fst).Nodup := by
  rw [buildCandState_eq]
  exact mapSet_foldl_fst_nodup cds [] (by simp)

theorem mapSet_foldl_sub (l : List (Int × String)) (acc : List (Int × String)) :
    ∀ p ∈ l.foldl (fun m cd => mapSet m cd.1 cd.2) acc, p ∈ acc ∨ p ∈ l := by
  induction l generalizing acc with
  | nil =>
    intro p hp
    exact Or.inl hp
  | cons cd rest ih =>
    intro p hp
    rw [List.foldl_cons] at hp
    rcases ih (mapSet acc cd.1 cd.2) p hp with hp2 | hp2
    · rcases mapSet_mem_sub acc cd.1 cd.2 p hp2 with hp3 | hp3
      · exact Or.inl hp3
      · exact Or.inr (by simp [hp3])
    · exact Or.inr (List.mem_cons_of_mem cd hp2)

theorem buildIdMap_sub (cds : List (Int × String)) :
    ∀ p ∈ (buildCandState cds).2, p ∈ cds := by
  rw [buildCandState_eq]
  intro p hp
  rcases mapSet_foldl_sub cds [] p hp with hp | hp
  · simp at hp
  · exact hp

theorem buildIdMap_snd_unique (cds : List (Int × String))
    (hsnd : (cds.map Prod.snd).Nodup) :
    ∀ p ∈ (buildCandState cds).2, ∀ q ∈ (buildCandState cds).2, p.2 = q.2 → p = q :=
  fun p hp q hq he =>
    List.inj_on_of_nodup_map hsnd (buildIdMap_sub cds p hp) (buildIdMap_sub cds q hq) he

theorem buildIdMap_fst_unique (cds : List (Int × String)) :
    ∀ p ∈ (buildCandState cds).2, ∀ q ∈ (buildCandState cds).2, p.1 = q.1 → p = q :=
  fun _ hp _ hq he =>
    List.inj_on_of_nodup_map (buildIdMap_fst_nodup cds) hp hq he

theorem buildIdMap_snd_nodup (cds : List (Int × String))
    (hsnd : (cds.map Prod.snd).Nodup) :
    (((buildCandState cds).2).map Prod.snd).Nodup := by
  apply List.Nodup.map_on
  · exact buildIdMap_snd_unique cds hsnd
  · exact List.Nodup.of_map Prod.fst (buildIdMap_fst_nodup cds)

theorem mapSet_swap_foldl (l : List (Int × String)) (acc : List (String × Int))
    (h : (acc.map Prod.fst ++ l.map Prod.snd).Nodup) :
    l.foldl (fun m p => mapSet m p.2 p.1) acc = acc ++ l.map Prod.swap := by
  induction l generalizing acc with
  | nil => simp
  | cons p rest ih =>
    rw [List.foldl_cons]
    have hk : p.2 ∉ acc.map Prod.fst := by
      rw [List.nodup_append] at h
      exact fun hmem => (h.2.2 hmem) (by simp)
    have hstep : mapSet acc p.2 p.1 = acc ++ [(p.2, p.1)] := by
      unfold mapSet
      rw [if_neg]
      rw [(lookup_eq_none_iff acc p.2).mpr hk]
      simp
    rw [hstep, ih]
    · simp [Prod.swap]
    · simpa using h

theorem dateToIdMap_eq (idMap : List (Int × String))
    (h : (idMap.map Prod.snd).Nodup) :
    dateToIdMap idMap = idMap.map Prod.swap := by
  unfold dateToIdMap
  rw [mapSet_swap_foldl idMap [] (by simpa using h)]
  simp

theorem lookup_swap_iff (idMap : List (Int × String))
    (h : (idMap.map Prod.snd).Nodup) (k : String) (i : Int) :
    (idMap.map Prod.swap).lookup k = some i ↔ (i, k) ∈ idMap := by
  rw [lookup_eq_some_iff]
  · constructor
    · intro hm
      rcases List.mem_map.mp hm with ⟨⟨a, b⟩, hq, hqe⟩
      obtain ⟨rfl, rfl⟩ : b = k ∧ a = i := by
        simpa [Prod.swap] using hqe
      exact hq
    · intro hm
      exact List.mem_map.mpr ⟨(i, k), hm, rfl⟩
  · rw [List.map_map]
    have : (Prod.fst ∘ Prod.swap : Int × String → String) = Prod.snd := rfl
    rw [this]
    exact h

theorem register_foldl_eq (d2i : List (String × Int)) (sel : List String)
    (l : List String) (acc : List Int × List Int) :
    l.foldl (fun acc dateStr =>
      match d2i.lookup dateStr with
      | none => acc
      | some candidateDateId =>
        if candidateDateId = 0 then acc
        else if dateStr ∈ sel then (acc.1 ++ [candidateDateId], acc.2)
        else (acc.1, acc.2 ++ [candidateDateId])) acc =
    (acc.1 ++ l.filterMap (registerPickAvail d2i sel),
      acc.2 ++ l.filterMap (registerPickUnavail d2i sel)) := by
  induction l generalizing acc with
  | nil => simp
  | cons k rest ih =>
    rw [List.foldl_cons, ih]
    cases hl : d2i.lookup k with
    | none => simp [List.filterMap_cons, registerPickAvail, registerPickUnavail, hl]
    | some cid =>
      by_cases h0 : cid = 0
      · simp [List.filterMap_cons, registerPickAvail, registerPickUnavail, hl, h0]
      · by_cases hsel : k ∈ sel
        · simp [List.filterMap_cons, registerPickAvail, registerPickUnavail, hl, h0, hsel]
        · simp [List.filterMap_cons, registerPickAvail, registerPickUnavail, hl, h0, hsel]

theorem handleRegisterIds_eq (cand : List String) (idMap : List (Int × String))
    (sel : List String) :
    handleRegisterIds cand idMap sel =
      (cand.filterMap (registerPickAvail (dateToIdMap idMap) sel),
        cand.filterMap (registerPickUnavail (dateToIdMap idMap) sel)) := by
  show cand.foldl _ ([], []) = _
  rw [register_foldl_eq]
  simp

theorem registerPickAvail_eq_some (d2i : List (String × Int)) (sel : List String)
    (k : String) (i : Int) :
    registerPickAvail d2i sel k = some i ↔
      d2i.lookup k = some i ∧ i ≠ 0 ∧ k ∈ sel := by
  unfold registerPickAvail
  cases hl : d2i.lookup k with
  | none => simp
  | some cid =>
    by_cases h0 : cid = 0
    · simp [h0]
      intro h
      omega
    · by_cases hsel : k ∈ sel
      · simp only [if_neg h0, if_pos hsel]
        constructor
        · intro h
          have hci : cid = i := by injection h
          exact ⟨h, by omega, hsel⟩
        · rintro ⟨h, -, -⟩
          exact h
      · simp only [if_neg h0, if_neg hsel]
        constructor
        · intro h
          exact absurd h (by simp)
        · rintro ⟨-, -, hk⟩
          exact absurd hk hsel

theorem registerPickUnavail_eq_some (d2i : List (String × Int)) (sel : List String)
    (k : String) (i : Int) :
    registerPickUnavail d2i sel k = some i ↔
      d2i.lookup k = some i ∧ i ≠ 0 ∧ k ∉ sel := by
  unfold registerPickUnavail
  cases hl : d2i.lookup k with
  | none => simp
  | some cid =>
    by_cases h0 : cid = 0
    · simp [h0]
      intro h
      omega
    · by_cases hsel : k ∈ sel
      · simp only [if_neg h0, if_pos hsel]
        constructor
        · intro h
          exact absurd h (by simp)
        · rintro ⟨-, -, hk⟩
          exact absurd hsel hk
      · simp only [if_neg h0, if_neg hsel]
        constructor
        · intro h
          have hci : cid = i := by injection h
          exact ⟨h, by omega, hsel⟩
        · rintro ⟨h, -, -⟩
          exact h

/-- C10: building the candidate-date set and the id-to-DateKey map from
server pairs with pairwise distinct DateKeys and non-zero ids, the
registration request's `available_candidate_dates` and
`unavailable_candidate_dates` id lists are disjoint and together contain
exactly one entry per id of the id-to-DateKey map, and an id is placed in
the available list exactly when its DateKey is in the current
`selectedDates` set. -/
theorem c10_register_ids (cds : List (Int × String)) (sel : List String)
    (hsnd : (cds.map Prod.snd).Nodup) (h0 : ∀ p ∈ cds, p.1 ≠ 0)
    (av unav : List Int)
    (hreg : (av, unav) = handleRegisterIds (buildCandState cds).1 (buildCandState cds).2 sel) :
    (av ++ unav).Nodup ∧
    (∀ i : Int, i ∈ av ++ unav ↔ ∃ k : String, (i, k) ∈ (buildCandState cds).2) ∧
    (∀ i : Int, ∀ k : String, (i, k) ∈ (buildCandState cds).2 →
      ((i ∈ av ↔ k ∈ sel) ∧ (i ∈ unav ↔ k ∉ sel))) := by
  have hidsnd := buildIdMap_snd_nodup cds hsnd
  have hd2i := dateToIdMap_eq _ hidsnd
  have hcand2 : (buildCandState cds).1 = cds.map Prod.snd := buildCandState_fst cds hsnd
  rw [handleRegisterIds_eq] at hreg
  have hav : av = ((buildCandState cds).1).filterMap
      (registerPickAvail (dateToIdMap (buildCandState cds).2) sel) :=
    congrArg Prod.fst hreg
  have hunav : unav = ((buildCandState cds).1).filterMap
      (registerPickUnavail (dateToIdMap (buildCandState cds).2) sel) :=
    congrArg Prod.snd hreg
  have hA : ∀ (i : Int) (k : String),
      registerPickAvail (dateToIdMap (buildCandState cds).2) sel k = some i ↔
        ((i, k) ∈ (buildCandState cds).2 ∧ k ∈ sel) := by
    intro i k
    rw [registerPickAvail_eq_some, hd2i, lookup_swap_iff _ hidsnd]
    constructor
    · rintro ⟨hm, -, hk⟩
      exact ⟨hm, hk⟩
    · rintro ⟨hm, hk⟩
      exact ⟨hm, h0 (i, k) (buildIdMap_sub cds (i, k) hm), hk⟩
  have hU : ∀ (i : Int) (k : String),
      registerPickUnavail (dateToIdMap (buildCandState cds).2) sel k = some i ↔
        ((i, k) ∈ (buildCandState cds).2 ∧ k ∉ sel) := by
    intro i k
    rw [registerPickUnavail_eq_some, hd2i, lookup_swap_iff _ hidsnd]
    constructor
    · rintro ⟨hm, -, hk⟩
      exact ⟨hm, hk⟩
    · rintro ⟨hm, hk⟩
      exact ⟨hm, h0 (i, k) (buildIdMap_sub cds (i, k) hm), hk⟩
  have huniq : ∀ (i : Int) (k1 k2 : String), (i, k1) ∈ (buildCandState cds).2 →
      (i, k2) ∈ (buildCandState cds).2 → k1 = k2 := by
    intro i k1 k2 h1 h2
    have := buildIdMap_fst_unique cds (i, k1) h1 (i, k2) h2 rfl
    exact congrArg Prod.snd this
  have hkmem : ∀ (i : Int) (k : String), (i, k) ∈ (buildCandState cds).2 →
      k ∈ (buildCandState cds).1 := by
    intro i k hm
    rw [hcand2]
    exact List.mem_map.mpr ⟨(i, k), buildIdMap_sub cds (i, k) hm, rfl⟩
  have hmemAv : ∀ i : Int, i ∈ av ↔
      ∃ k, (i, k) ∈ (buildCandState cds).2 ∧ k ∈ sel := by
    intro i
    rw [hav, List.mem_filterMap]
    constructor
    · rintro ⟨k, -, hpk⟩
      exact ⟨k, (hA i k).mp hpk⟩
    · rintro ⟨k, hm, hk⟩
      exact ⟨k, hkmem i k hm, (hA i k).mpr ⟨hm, hk⟩⟩
  have hmemUnav : ∀ i : Int, i ∈ unav ↔
      ∃ k, (i, k) ∈ (buildCandState cds).2 ∧ k ∉ sel := by
    intro i
    rw [hunav, List.mem_filterMap]
    constructor
    · rintro ⟨k, -, hpk⟩
      exact ⟨k, (hU i k).mp hpk⟩
    · rintro ⟨k, hm, hk⟩
      exact ⟨k, hkmem i k hm, (hU i k).mpr ⟨hm, hk⟩⟩
  have hcandNodup : ((buildCandState cds).1).Nodup := by
    rw [hcand2]
    exact hsnd
  refine ⟨?_, ?_, ?_⟩
  · rw [List.nodup_append]
    refine ⟨?_, ?_, ?_⟩
    · rw [hav]
      refine List.Nodup.filterMap ?_ hcandNodup
      intro a b i hia hib
      rw [Option.mem_def] at hia hib
      exact huniq i a b ((hA i a).mp hia).1 ((hA i b).mp hib).1
    · rw [hunav]
      refine List.Nodup.filterMap ?_ hcandNodup
      intro a b i hia hib
      rw [Option.mem_def] at hia hib
      exact huniq i a b ((hU i a).mp hia).1 ((hU i b).mp hib).1
    · intro i hia hib
      obtain ⟨k1, hm1, hk1⟩ := (hmemAv i).mp hia
      obtain ⟨k2, hm2, hk2⟩ := (hmemUnav i).mp hib
      exact hk2 ((huniq i k2 k1 hm2 hm1) ▸ hk1)
  · intro i
    rw [List.mem_append, hmemAv, hmemUnav]
    constructor
    · rintro (⟨k, hm, -⟩ | ⟨k, hm, -⟩) <;> exact ⟨k, hm⟩
    · rintro ⟨k, hm⟩
      by_cases hk : k ∈ sel
      · exact Or.inl ⟨k, hm, hk⟩
      · exact Or.inr ⟨k, hm, hk⟩
  · intro i k hm
    constructor
    · rw [hmemAv]
      constructor
      · rintro ⟨k1, hm1, hk1⟩
        exact (huniq i k1 k hm1 hm) ▸ hk1
      · intro hk
        exact ⟨k, hm, hk⟩
    · rw [hmemUnav]
      constructor
      · rintro ⟨k1, hm1, hk1⟩
        exact (huniq i k1 k hm1 hm) ▸ hk1
      · intro hk
        exact ⟨k, hm, hk⟩

/-- Witness for C10 with candidates `(1, "2025-6-2")`, `(2, "2025-6-9")` and
selection `{"2025-6-2"}`: the request carries available ids `[1]` and
unavailable ids `[2]`. -/
theorem c10_register_ids_witness :
    (([1] ++ [2] : List Int)).Nodup ∧
    (((1 : Int) ∈ ([1] : List Int) ++ [2]) ↔
      ∃ k : String, ((1 : Int), k) ∈ (buildCandState [(1, "2025-6-2"), (2, "2025-6-9")]).2) ∧
    (((1 : Int) ∈ ([1] : List Int)) ↔ "2025-6-2" ∈ (["2025-6-2"] : List String)) := by
  have h := c10_register_ids [(1, "2025-6-2"), (2, "2025-6-9")] ["2025-6-2"]
    (by decide) (by decide) [1] [2] (by decide)
  exact ⟨h.1, h.2.1 1, (h.2.2 1 "2025-6-2" (by decide)).1⟩
